import Mathlib

/-!
Shallow embedding of the YNAB email-automation core
(`ynab_client.py` / `report_generator.py`): transaction classification,
category aggregation, budget-status evaluation and report statistics.

Amounts are milliunits (signed integers); report-facing values are exact
rationals (milliunits divided by 1000).  Optional / nullable record
fields are `Option` values; Python truthiness of strings (absent, null
and `""` are all falsy) is modelled explicitly.
-/

namespace Ynab

/-- Lower-case a string character by character (Python `str.lower` on the
ASCII names involved here). -/
def lowerStr (s : String) : String := ⟨s.data.map Char.toLower⟩

/-- `needle.isPrefixOf hay` on character lists. -/
def listPrefixOf : List Char → List Char → Bool
  | [], _ => true
  | _ :: _, [] => false
  | a :: as, b :: bs => a == b && listPrefixOf as bs

/-- Does `hay` contain `needle` as a contiguous substring (Python `in`)? -/
def listContainsSub (needle : List Char) : List Char → Bool
  | [] => needle.isEmpty
  | c :: rest => listPrefixOf needle (c :: rest) || listContainsSub needle rest

/-- `needle in hay` on strings (Python substring test). -/
def strContainsSub (hay needle : String) : Bool :=
  listContainsSub needle.data hay.data

/-- `'inflow' in name.lower() or 'ready to assign' in name.lower()`
(`ynab_client.py`, used at lines 114, 155, 200, 230, 290, 319). -/
def isInflowName (name : String) : Bool :=
  strContainsSub (lowerStr name) "inflow" || strContainsSub (lowerStr name) "ready to assign"

/-- `'reconciliation' in payee.lower() or 'balance adjustment' in payee.lower()`
(`ynab_client.py`, lines 109, 150, 195, 280). -/
def isReconPayee (payee : String) : Bool :=
  strContainsSub (lowerStr payee) "reconciliation" ||
    strContainsSub (lowerStr payee) "balance adjustment"

/-- Python truthiness of an optional string field: absent/null (`none`) and
the empty string are falsy. -/
def truthy (o : Option String) : Bool :=
  match o with
  | none => false
  | some s => s != ""

/-- `t.get(field) or dflt`: the default replaces an absent, null or empty
string. -/
def orDefault (o : Option String) (dflt : String) : String :=
  match o with
  | none => dflt
  | some s => if s = "" then dflt else s

/-- A calendar date as parsed by `datetime.strptime(_, "%Y-%m-%d")`. -/
structure Date where
  year : Nat
  month : Nat
  day : Nat
deriving DecidableEq, Repr

/-- Day-of-week of a Gregorian date (Sakamoto's method), `0 = Sunday`. -/
def dayOfWeekIdx (d : Date) : Nat :=
  let y := if d.month < 3 then d.year - 1 else d.year
  let t := [0, 3, 2, 5, 0, 3, 5, 1, 4, 6, 2, 4]
  (y + y / 4 - y / 100 + y / 400 + (t.getD (d.month - 1) 0) + d.day) % 7

/-- The weekday name produced by `date.strftime("%A")`. -/
def weekdayName (d : Date) : String :=
  ["Sunday", "Monday", "Tuesday", "Wednesday", "Thursday", "Friday",
   "Saturday"].getD (dayOfWeekIdx d) "Sunday"

/-- One subtransaction of a split (`sub.get('amount', 0)`,
`sub.get('category_name')`). -/
structure Subtransaction where
  amount : Option Int
  category_name : Option String
deriving DecidableEq, Repr

/-- A transaction record as returned by the API: optional fields are
`Option`, `none` covering both absent and JSON-null. -/
structure Transaction where
  date : Date
  amount : Option Int
  payee_name : Option String
  category_name : Option String
  category_id : Option String
  transfer_account_id : Option String
  scheduled_transaction_id : Option String
  subtransactions : List Subtransaction
deriving DecidableEq, Repr

/-- Milliunit amount of a transaction, `t.get('amount', 0)`. -/
def Transaction.amt (t : Transaction) : Int := t.amount.getD 0

/-- Milliunit amount of a subtransaction, `sub.get('amount', 0)`. -/
def Subtransaction.amt (s : Subtransaction) : Int := s.amount.getD 0

/-- Effective category name of a subtransaction:
`sub.get('category_name') or 'Uncategorized'`. -/
def Subtransaction.catName (s : Subtransaction) : String :=
  orDefault s.category_name "Uncategorized"

/-- Effective category name of a non-split transaction:
`t.get('category_name') or 'Uncategorized'`. -/
def Transaction.catName (t : Transaction) : String :=
  orDefault t.category_name "Uncategorized"

/-- Effective payee name: `t.get('payee_name') or ''`. -/
def Transaction.payee (t : Transaction) : String := t.payee_name.getD ""

/-- Minor-unit (milliunit) integer to major units: division by 1000,
exact over ℚ (`amount / 1000`). -/
def milliToMajor (a : Int) : ℚ := (a : ℚ) / 1000

/-- Major units back to minor units: multiplication by 1000. -/
def majorToMilli (q : ℚ) : ℚ := q * 1000

/-! ### Category aggregation (`YNABDataProcessor.aggregate_by_category`) -/

/-- The running per-category record: `{"total": .., "count": .., "transactions": [..]}`. -/
structure CatAgg where
  total : ℚ
  count : Nat
  transactions : List Transaction
deriving DecidableEq, Repr

/-- `category_totals` is a Python dict keyed by category name; we model it
as an insertion-ordered association list. -/
abbrev CatMap := List (String × CatAgg)

/-- One accumulation step: create the entry if the key is new (at the end,
matching dict insertion order), then `total -= amount; count += 1;
transactions.append(t)`. -/
def addContribution : CatMap → String → ℚ → Transaction → CatMap
  | [], k, a, t => [(k, ⟨0 - a, 1, [t]⟩)]
  | (k', e) :: rest, k, a, t =>
      if k' = k then
        (k', ⟨e.total - a, e.count + 1, e.transactions ++ [t]⟩) :: rest
      else
        (k', e) :: addContribution rest k a t

/-- The body of the subtransaction loop of the split branch: skip inflow
subtransactions, otherwise accumulate the subtransaction's amount under
its category, storing the parent `t`. -/
def subStep (t : Transaction) (acc : CatMap) (sub : Subtransaction) : CatMap :=
  if isInflowName sub.catName then acc
  else addContribution acc sub.catName (milliToMajor sub.amt) t

/-- Process one transaction of `aggregate_by_category`'s loop
(`ynab_client.py` lines 273–335): skip transfers and reconciliations;
a transaction with subtransactions is expanded per subtransaction
(inflow subtransactions skipped, parent appended to the lists); otherwise
the transaction's own category/amount are used, after the inflow check. -/
def processTransaction (m : CatMap) (t : Transaction) : CatMap :=
  if truthy t.transfer_account_id then m
  else if isReconPayee t.payee then m
  else if t.subtransactions ≠ [] then
    t.subtransactions.foldl (subStep t) m
  else
    if isInflowName t.catName then m
    else addContribution m t.catName (milliToMajor t.amt) t

/-- `aggregate_by_category(transactions)`. -/
def aggregate_by_category (ts : List Transaction) : CatMap :=
  ts.foldl processTransaction []

/-- Dict lookup in the modelled `category_totals`. -/
def lookupCat : CatMap → String → Option CatAgg
  | [], _ => none
  | (k', e) :: rest, k => if k' = k then some e else lookupCat rest k

/-- The keys of the aggregate (category names present in the output). -/
def catKeys (m : CatMap) : List String := m.map Prod.fst

/-- Sum of the `total` fields over all categories of an aggregate. -/
def sumTotals (m : CatMap) : ℚ := (m.map (fun p => p.2.total)).sum

/-- The subtransactions of `t` that survive the per-subtransaction inflow
check (the ones actually accumulated by the split branch). -/
def nonInflowSubs (t : Transaction) : List Subtransaction :=
  t.subtransactions.filter (fun s => !isInflowName s.catName)

/-- Those surviving subtransactions whose effective category name is `k`. -/
def subsFor (t : Transaction) (k : String) : List Subtransaction :=
  (nonInflowSubs t).filter (fun s => s.catName = k)

/-- Milliunit sum of the amounts of all subtransactions of `t`. -/
def subAmountSum (t : Transaction) : Int :=
  (t.subtransactions.map Subtransaction.amt).sum

/-- Milliunit sum of the amounts of the non-inflow subtransactions of `t`. -/
def nonInflowSubAmountSum (t : Transaction) : Int :=
  ((nonInflowSubs t).map Subtransaction.amt).sum

/-- The numeric projection of an aggregate: category name, total and count
(forgetting the stored contributing-transaction lists). -/
def numericAgg (m : CatMap) : List (String × ℚ × Nat) :=
  m.map (fun p => (p.1, p.2.total, p.2.count))

/-! ### Budget status evaluation (`YNABDataProcessor.get_category_status`) -/

/-- A current-month category budget snapshot (`cat.get("budgeted", 0)` etc.;
`none` models an absent field, defaulted to 0). -/
structure CategorySnapshot where
  name : Option String
  budgeted : Option Int
  activity : Option Int
  balance : Option Int
deriving DecidableEq, Repr

/-- Effective name: `cat.get("name") or "Unknown"`. -/
def CategorySnapshot.effName (c : CategorySnapshot) : String :=
  orDefault c.name "Unknown"

/-- Major-unit budgeted amount: `cat.get("budgeted", 0) / 1000`. -/
def CategorySnapshot.b (c : CategorySnapshot) : ℚ := milliToMajor (c.budgeted.getD 0)

/-- Major-unit absolute activity: `abs(cat.get("activity", 0)) / 1000`. -/
def CategorySnapshot.act (c : CategorySnapshot) : ℚ := milliToMajor |c.activity.getD 0|

/-- Major-unit balance: `cat.get("balance", 0) / 1000`. -/
def CategorySnapshot.bal (c : CategorySnapshot) : ℚ := milliToMajor (c.balance.getD 0)

/-- `percent_used = (activity / budgeted * 100) if budgeted > 0 else 0`. -/
def CategorySnapshot.percentUsed (c : CategorySnapshot) : ℚ :=
  if c.b > 0 then c.act / c.b * 100 else 0

/-- An entry appended to one of the three status lists; the underfunded
entries carry no `percent_used` key, hence the `Option`. -/
structure StatusEntry where
  name : String
  budgeted : ℚ
  activity : ℚ
  balance : ℚ
  percent_used : Option ℚ
deriving DecidableEq, Repr

/-- The `{"overspent": [..], "warning": [..], "underfunded": [..]}` result. -/
structure CategoryStatus where
  overspent : List StatusEntry
  warning : List StatusEntry
  underfunded : List StatusEntry
deriving DecidableEq, Repr

/-- The entry built for a snapshot in the overspent/warning branches. -/
def CategorySnapshot.entryWithPct (c : CategorySnapshot) : StatusEntry :=
  ⟨c.effName, c.b, c.act, c.bal, some c.percentUsed⟩

/-- The entry built for a snapshot in the underfunded branch (no
`percent_used` key). -/
def CategorySnapshot.entryNoPct (c : CategorySnapshot) : StatusEntry :=
  ⟨c.effName, c.b, c.act, c.bal, none⟩

/-- One iteration of `get_category_status`'s loop (`ynab_client.py`
lines 223–261): skip inflow categories and zero budgets, then the
`if balance < 0 / elif percent_used >= threshold / elif balance > budgeted*2`
chain. -/
def statusStep (threshold : Int) (r : CategoryStatus) (c : CategorySnapshot) :
    CategoryStatus :=
  if isInflowName c.effName then r
  else if c.b = 0 then r
  else if c.bal < 0 then { r with overspent := r.overspent ++ [c.entryWithPct] }
  else if c.percentUsed ≥ (threshold : ℚ) then
    { r with warning := r.warning ++ [c.entryWithPct] }
  else if c.bal > c.b * 2 then
    { r with underfunded := r.underfunded ++ [c.entryNoPct] }
  else r

/-- `get_category_status(threshold_percent)`, over the month's category
snapshots. -/
def get_category_status (cats : List CategorySnapshot) (threshold : Int) :
    CategoryStatus :=
  cats.foldl (statusStep threshold) ⟨[], [], []⟩

/-! ### Uncategorized transactions (`get_uncategorized_transactions`) -/

/-- The per-transaction test of `get_uncategorized_transactions`'s loop
(`ynab_client.py` lines 188–205): keep a fetched transaction iff it is not
a transfer, not a reconciliation, not an inflow, and
`not t.get("category_id") or t.get("category_name") == "Uncategorized"`. -/
def uncategorizedPred (t : Transaction) : Bool :=
  !truthy t.transfer_account_id &&
  !isReconPayee t.payee &&
  !isInflowName (t.category_name.getD "") &&
  (!truthy t.category_id || t.category_name == some "Uncategorized")

/-- `get_uncategorized_transactions`, over the fetched transaction list. -/
def get_uncategorized_transactions (ts : List Transaction) : List Transaction :=
  ts.filter uncategorizedPred

/-! ### Report statistics (`report_generator.py`) -/

/-- `sum(abs(t.get("amount", 0)) / 1000 for t in transactions)`
(`report_generator.py` lines 50 and 73). -/
def totalSpentOf (ts : List Transaction) : ℚ :=
  ts.foldl (fun acc t => acc + milliToMajor |t.amt|) 0

/-- The scalar data the weekly template receives that the core computes
(the other template arguments are passed through verbatim). -/
structure WeeklyRecap where
  total_spent : ℚ
  transaction_count : Nat
  category_spending : CatMap
deriving Repr

/-- `generate_weekly_recap` (`report_generator.py` lines 34–60): total
spent from the raw filtered list, count, and the aggregate passed through. -/
def generate_weekly_recap (ts : List Transaction) (category_spending : CatMap) :
    WeeklyRecap :=
  { total_spent := totalSpentOf ts
    transaction_count := ts.length
    category_spending := category_spending }

/-- Weekday name of a transaction's date, as in
`datetime.strptime(t["date"], "%Y-%m-%d").strftime("%A")`. -/
def Transaction.weekday (t : Transaction) : String := weekdayName t.date

/-- `day_counts[name] += 1` on an insertion-ordered counter dict
(`collections.defaultdict(int)` preserves first-encounter key order). -/
def bump : List (String × Nat) → String → List (String × Nat)
  | [], k => [(k, 1)]
  | (k', c) :: rest, k =>
      if k' = k then (k', c + 1) :: rest else (k', c) :: bump rest k

/-- The `day_counts` dict of `generate_monthly_recap` (lines 89–92). -/
def dayCounts (ts : List Transaction) : List (String × Nat) :=
  ts.foldl (fun acc t => bump acc t.weekday) []

/-- `max(items, key=lambda x: x[1])`: the first entry carrying the maximal
count (Python `max` keeps the earlier element on ties). -/
def maxBySnd : List (String × Nat) → Option (String × Nat)
  | [] => none
  | x :: xs =>
      match maxBySnd xs with
      | none => some x
      | some b => if b.2 > x.2 then some b else some x

/-- `most_active_day` (line 94): name of the first maximal entry of
`day_counts`, `"N/A"` when there are no transactions. -/
def mostActiveDay (ts : List Transaction) : String :=
  match maxBySnd (dayCounts ts) with
  | some p => p.1
  | none => "N/A"

/-- `max(abs(t.get("amount", 0)) / 1000 for t in transactions)` guarded by
`if transactions` (lines 84–86). -/
def largestTransactionOf : List Transaction → ℚ
  | [] => 0
  | t :: rest => rest.foldl (fun acc u => max acc (milliToMajor |u.amt|)) (milliToMajor |t.amt|)

/-- Stable insertion into a list sorted descending by `total`
(ties keep the earlier element first, as Python's stable `sorted`). -/
def insertByTotalDesc (x : String × CatAgg) : CatMap → CatMap
  | [] => [x]
  | y :: ys => if x.2.total > y.2.total then x :: y :: ys else y :: insertByTotalDesc x ys

/-- `sorted(category_spending.items(), key=lambda x: x[1]["total"], reverse=True)`. -/
def sortByTotalDesc (m : CatMap) : CatMap := m.foldr insertByTotalDesc []

/-- The scalar statistics computed by `generate_monthly_recap`
(`report_generator.py` lines 62–124); `days_in_month` is derived from the
current date outside the core and is taken here as an input. -/
structure MonthlyRecap where
  total_spent : ℚ
  transaction_count : Nat
  avg_per_day : ℚ
  avg_transaction : ℚ
  largest_transaction : ℚ
  most_active_day : String
  categories_used : Nat
  top_categories : List (String × CatAgg × ℚ)
deriving Repr

/-- `generate_monthly_recap`: totals and count from the raw filtered list,
division-guarded averages, largest transaction, most-active weekday and
the percentage-annotated top-category ranking. -/
def generate_monthly_recap (ts : List Transaction) (category_spending : CatMap)
    (days_in_month : Int) : MonthlyRecap :=
  let total_spent := totalSpentOf ts
  let transaction_count := ts.length
  { total_spent := total_spent
    transaction_count := transaction_count
    avg_per_day := if days_in_month > 0 then total_spent / (days_in_month : ℚ) else 0
    avg_transaction :=
      if transaction_count > 0 then total_spent / (transaction_count : ℚ) else 0
    largest_transaction := largestTransactionOf ts
    most_active_day := mostActiveDay ts
    categories_used := category_spending.length
    top_categories :=
      (sortByTotalDesc category_spending).map
        (fun p => (p.1, p.2,
          if total_spent > 0 then p.2.total / total_spent * 100 else 0)) }

/-! ### Spec-side formulations used for refinement comparisons -/

/-- Spec formulation of the weekly/monthly total: "the sum over that raw
list of the absolute value of each transaction's amount divided by 1000
(with a missing amount treated as 0)". -/
def totalSpentSpec (ts : List Transaction) : ℚ :=
  (ts.map (fun t => |((t.amount.getD 0 : Int) : ℚ)| / 1000)).sum

/-! ### Concrete records used in witnesses and counterexamples -/

/-- Example 3 of the spec: a split of −10000 into Groceries −6000 and
Dining −4000. -/
def exSplit : Transaction :=
  ⟨⟨2024, 1, 1⟩, some (-10000), none, some "Split", none, none, none,
   [⟨some (-6000), some "Groceries"⟩, ⟨some (-4000), some "Dining"⟩]⟩

/-- A split with one inflow subtransaction next to a Groceries spend. -/
def exSplitInflow : Transaction :=
  ⟨⟨2024, 1, 1⟩, some (-6000), none, none, none, none, none,
   [⟨some (-6000), some "Groceries"⟩, ⟨some 1000, some "Inflow: Ready to Assign"⟩]⟩

/-- A transaction whose transfer-account id is present and non-null but
empty (falsy in Python). -/
def exEmptyTransfer : Transaction :=
  ⟨⟨2024, 1, 1⟩, some (-5000), none, some "Groceries", none, some "", none, []⟩

/-- A genuine transfer (non-empty transfer-account id). -/
def exTransfer : Transaction :=
  ⟨⟨2024, 1, 2⟩, some (-7000), none, some "Groceries", none, some "acct-2", none, []⟩

/-- A plain non-split spend used in witnesses. -/
def exPlain : Transaction :=
  ⟨⟨2024, 1, 3⟩, some (-2500), some "Store", some "Dining", some "cid-1", none, none, []⟩

/-- An uncategorized transaction (absent category id and name). -/
def exUncat : Transaction :=
  ⟨⟨2024, 1, 4⟩, some (-1500), some "Shop", none, none, none, some "sched-1", []⟩

/-- Example 5 of the spec: three Mondays (2024-01-01, 2024-01-08,
2024-01-15) and one Tuesday (2024-01-02). -/
def exWeekTxs : List Transaction :=
  [⟨⟨2024, 1, 1⟩, some (-1000), none, some "A", none, none, none, []⟩,
   ⟨⟨2024, 1, 2⟩, some (-2000), none, some "A", none, none, none, []⟩,
   ⟨⟨2024, 1, 8⟩, some (-3000), none, some "A", none, none, none, []⟩,
   ⟨⟨2024, 1, 15⟩, some (-4000), none, some "A", none, none, none, []⟩]

/-- Example 1 of the spec: budgeted 100000, activity −85000, balance
15000. -/
def exCatWarn : CategorySnapshot := ⟨some "Food", some 100000, some (-85000), some 15000⟩

/-- Example 2 of the spec: budgeted 50000, activity −60000, balance
−10000. -/
def exCatOver : CategorySnapshot := ⟨some "Stuff", some 50000, some (-60000), some (-10000)⟩

/-! ### Characterization helpers (used to state and prove the claims) -/

/-- The non-inflow subtransactions of a list whose effective category name
is `k`. -/
def subsForIn (subs : List Subtransaction) (k : String) : List Subtransaction :=
  (subs.filter (fun s => !isInflowName s.catName)).filter (fun s => s.catName = k)

/-- What the split-expansion loop leaves under key `k`, given the previous
entry and the relevant subtransactions. -/
def updatedEntry (prev : Option CatAgg) (sf : List Subtransaction) (t : Transaction) :
    Option CatAgg :=
  match prev with
  | none =>
      if sf.isEmpty then none
      else some ⟨0 - (sf.map (fun s => milliToMajor s.amt)).sum, sf.length,
        List.replicate sf.length t⟩
  | some e =>
      some ⟨e.total - (sf.map (fun s => milliToMajor s.amt)).sum, e.count + sf.length,
        e.transactions ++ List.replicate sf.length t⟩

/-- Number of transactions of `ts` falling on weekday `w`. -/
def weekdayCount (ts : List Transaction) (w : String) : Nat :=
  (ts.map Transaction.weekday).count w

/-- Keys of a counter dict. -/
def countKeys (l : List (String × Nat)) : List String := l.map Prod.fst

/-- Lookup in a counter dict. -/
def lookupCount : List (String × Nat) → String → Option Nat
  | [], _ => none
  | (k', c) :: rest, k => if k' = k then some c else lookupCount rest k

/-! ## Helper lemmas -/

theorem totalSpentOf_aux (ts : List Transaction) (acc : ℚ) :
    ts.foldl (fun a t => a + milliToMajor |t.amt|) acc = acc + totalSpentSpec ts := by
  induction ts generalizing acc with
  | nil => simp [totalSpentSpec]
  | cons t rest ih =>
      simp only [List.foldl_cons, ih, totalSpentSpec, List.map_cons, List.sum_cons]
      have : milliToMajor |t.amt| = |((t.amount.getD 0 : Int) : ℚ)| / 1000 := by
        simp only [milliToMajor, Transaction.amt]
        push_cast
        ring
      rw [this]
      ring

theorem totalSpentOf_eq_spec (ts : List Transaction) :
    totalSpentOf ts = totalSpentSpec ts := by
  simpa [totalSpentOf] using totalSpentOf_aux ts 0

/-! ## Claims -/

/-- C9: converting a minor-unit (milliunit) integer amount to major units
(division by 1000) and back (multiplication by 1000) recovers the original
integer exactly. -/
theorem C9_roundtrip (a : ℤ) : majorToMilli (milliToMajor a) = (a : ℚ) := by
  simp only [majorToMilli, milliToMajor]
  ring

/-- C6: for every already-filtered transaction list handed to the weekly
and monthly report builders, the reported `total_spent` is the sum over
the raw list of `|amount| / 1000` (missing amounts as 0), computed
independently of the category aggregate, and `transaction_count` is the
length of the list. -/
theorem C6_raw_totals (ts : List Transaction) (cs cs' : CatMap) (d : Int) :
    (generate_weekly_recap ts cs).total_spent = totalSpentSpec ts
    ∧ (generate_weekly_recap ts cs).transaction_count = ts.length
    ∧ (generate_weekly_recap ts cs).total_spent = (generate_weekly_recap ts cs').total_spent
    ∧ (generate_monthly_recap ts cs d).total_spent = totalSpentSpec ts
    ∧ (generate_monthly_recap ts cs d).transaction_count = ts.length
    ∧ (generate_monthly_recap ts cs d).total_spent
        = (generate_monthly_recap ts cs' d).total_spent := by
  refine ⟨?_, rfl, rfl, ?_, rfl, rfl⟩ <;>
    simp [generate_weekly_recap, generate_monthly_recap, totalSpentOf_eq_spec]

/-- C7: each division-guard of the monthly statistics short-circuits to 0:
average-per-day is 0 when days-in-month ≤ 0, average-per-transaction is 0
when the count is 0, the largest transaction is 0 on an empty list, and a
top-category percentage is 0 when `total_spent` is not positive; otherwise
the guarded quotients are returned. -/
theorem C7_division_guards (ts : List Transaction) (cs : CatMap) (d : Int)
    (p : String × CatAgg × ℚ) :
    (d ≤ 0 → (generate_monthly_recap ts cs d).avg_per_day = 0)
    ∧ (0 < d → (generate_monthly_recap ts cs d).avg_per_day
        = (generate_monthly_recap ts cs d).total_spent / (d : ℚ))
    ∧ (ts.length = 0 → (generate_monthly_recap ts cs d).avg_transaction = 0)
    ∧ (0 < ts.length → (generate_monthly_recap ts cs d).avg_transaction
        = (generate_monthly_recap ts cs d).total_spent / (ts.length : ℚ))
    ∧ (ts = [] → (generate_monthly_recap ts cs d).largest_transaction = 0)
    ∧ (p ∈ (generate_monthly_recap ts cs d).top_categories →
        p.2.2 = if 0 < (generate_monthly_recap ts cs d).total_spent
          then p.2.1.total / (generate_monthly_recap ts cs d).total_spent * 100 else 0) := by
  refine ⟨fun h => ?_, fun h => ?_, fun h => ?_, fun h => ?_, fun h => ?_, fun h => ?_⟩
  · simp [generate_monthly_recap, not_lt.mpr h]
  · simp [generate_monthly_recap, h]
  · simp [generate_monthly_recap, h]
  · simp [generate_monthly_recap, Nat.pos_iff_ne_zero.mp h]
  · subst h; simp [generate_monthly_recap, largestTransactionOf]
  · simp only [generate_monthly_recap, List.mem_map] at h
    obtain ⟨q, _, rfl⟩ := h
    rfl

/-- C7 witness: at a concrete one-transaction month of 31 days the guarded
quotient branch is taken. -/
theorem C7_division_guards_witness :
    0 < (31 : Int)
    ∧ (generate_monthly_recap [exPlain] [] 31).avg_per_day
        = (generate_monthly_recap [exPlain] [] 31).total_spent / ((31 : Int) : ℚ) :=
  ⟨by norm_num, (C7_division_guards [exPlain] [] 31 ("x", ⟨0, 0, []⟩, 0)).2.1 (by norm_num)⟩

/-- C10: `get_uncategorized_transactions` keeps a fetched transaction iff
it is not a transfer, not a reconciliation, not an inflow, and its
category id is absent/null/empty or its category name equals the exact
string "Uncategorized" (case-sensitive full comparison); the
scheduled-transaction id never affects the decision. -/
theorem C10_uncategorized (ts : List Transaction) (t : Transaction)
    (sid : Option String) :
    (t ∈ get_uncategorized_transactions ts ↔
      t ∈ ts
      ∧ truthy t.transfer_account_id = false
      ∧ isReconPayee t.payee = false
      ∧ isInflowName (t.category_name.getD "") = false
      ∧ (truthy t.category_id = false ∨ t.category_name = some "Uncategorized"))
    ∧ uncategorizedPred { t with scheduled_transaction_id := sid }
        = uncategorizedPred t := by
  refine ⟨?_, rfl⟩
  simp [get_uncategorized_transactions, List.mem_filter, uncategorizedPred, and_assoc]

/-- C2: `get_category_status` classifies each category snapshot mutually
exclusively, in priority order: inflow categories and zero budgets are
skipped entirely; otherwise balance < 0 puts the category only in
overspent; otherwise percent_used ≥ threshold only in warning; otherwise
balance > budgeted × 2 only in underfunded; otherwise in no list. -/
theorem C2_status_priority (cat : CategorySnapshot) (th : Int) (r : CategoryStatus)
    (cats : List CategorySnapshot) :
    get_category_status cats th = cats.foldl (statusStep th) ⟨[], [], []⟩
    ∧ (isInflowName cat.effName = true → statusStep th r cat = r)
    ∧ (cat.b = 0 → statusStep th r cat = r)
    ∧ (isInflowName cat.effName = false → cat.b ≠ 0 → cat.bal < 0 →
        statusStep th r cat = { r with overspent := r.overspent ++ [cat.entryWithPct] })
    ∧ (isInflowName cat.effName = false → cat.b ≠ 0 → ¬cat.bal < 0 →
        cat.percentUsed ≥ (th : ℚ) →
        statusStep th r cat = { r with warning := r.warning ++ [cat.entryWithPct] })
    ∧ (isInflowName cat.effName = false → cat.b ≠ 0 → ¬cat.bal < 0 →
        ¬cat.percentUsed ≥ (th : ℚ) → cat.bal > cat.b * 2 →
        statusStep th r cat = { r with underfunded := r.underfunded ++ [cat.entryNoPct] })
    ∧ (isInflowName cat.effName = false → cat.b ≠ 0 → ¬cat.bal < 0 →
        ¬cat.percentUsed ≥ (th : ℚ) → ¬cat.bal > cat.b * 2 →
        statusStep th r cat = r) := by
  refine ⟨rfl, fun h1 => ?_, fun h2 => ?_, fun h1 h2 h3 => ?_, fun h1 h2 h3 h4 => ?_,
    fun h1 h2 h3 h4 h5 => ?_, fun h1 h2 h3 h4 h5 => ?_⟩
  · simp [statusStep, h1]
  · simp [statusStep, h2]
  · simp [statusStep, h1, h2, h3]
  · simp [statusStep, h1, h2, h3, h4]
  · simp [statusStep, h1, h2, h3, h4, h5]
  · simp [statusStep, h1, h2, h3, h4, h5]

/-- C2 witness: the spec's Example 1 (budgeted 100000, activity −85000,
balance 15000, threshold 80) is classified Warning with percent_used 85,
and Example 2 (budgeted 50000, activity −60000, balance −10000) is
classified Overspent. -/
theorem C2_status_priority_witness :
    (isInflowName exCatWarn.effName = false ∧ exCatWarn.b ≠ 0 ∧ ¬exCatWarn.bal < 0
      ∧ exCatWarn.percentUsed ≥ ((80 : Int) : ℚ) ∧ exCatWarn.percentUsed = 85)
    ∧ get_category_status [exCatWarn] 80
        = [exCatWarn].foldl (statusStep 80) ⟨[], [], []⟩
    ∧ statusStep 80 ⟨[], [], []⟩ exCatWarn = ⟨[], [exCatWarn.entryWithPct], []⟩
    ∧ exCatOver.bal < 0
    ∧ statusStep 80 ⟨[], [], []⟩ exCatOver = ⟨[exCatOver.entryWithPct], [], []⟩ :=
  ⟨⟨by decide,
    by norm_num [exCatWarn, CategorySnapshot.b, milliToMajor],
    by norm_num [exCatWarn, CategorySnapshot.bal, milliToMajor],
    by norm_num [exCatWarn, CategorySnapshot.percentUsed, CategorySnapshot.b,
      CategorySnapshot.act, milliToMajor],
    by norm_num [exCatWarn, CategorySnapshot.percentUsed, CategorySnapshot.b,
      CategorySnapshot.act, milliToMajor]⟩,
   (C2_status_priority exCatWarn 80 ⟨[], [], []⟩ [exCatWarn]).1,
   (C2_status_priority exCatWarn 80 ⟨[], [], []⟩ []).2.2.2.2.1 (by decide)
     (by norm_num [exCatWarn, CategorySnapshot.b, milliToMajor])
     (by norm_num [exCatWarn, CategorySnapshot.bal, milliToMajor])
     (by norm_num [exCatWarn, CategorySnapshot.percentUsed, CategorySnapshot.b,
        CategorySnapshot.act, milliToMajor]),
   by norm_num [exCatOver, CategorySnapshot.bal, milliToMajor],
   (C2_status_priority exCatOver 80 ⟨[], [], []⟩ []).2.2.2.1 (by decide)
     (by norm_num [exCatOver, CategorySnapshot.b, milliToMajor])
     (by norm_num [exCatOver, CategorySnapshot.bal, milliToMajor])⟩

theorem lookupCat_addContribution (m : CatMap) (k k' : String) (a : ℚ) (t : Transaction) :
    lookupCat (addContribution m k a t) k' =
      if k' = k then
        match lookupCat m k with
        | none => some ⟨0 - a, 1, [t]⟩
        | some e => some ⟨e.total - a, e.count + 1, e.transactions ++ [t]⟩
      else lookupCat m k' := by
  induction m with
  | nil =>
      by_cases h : k' = k
      · simp [addContribution, lookupCat, h]
      · simp [addContribution, lookupCat, h, Ne.symm h]
  | cons p rest ih =>
      obtain ⟨k0, e0⟩ := p
      by_cases h0 : k0 = k
      · subst h0
        by_cases h1 : k' = k0
        · simp [addContribution, lookupCat, h1]
        · simp [addContribution, lookupCat, h1, Ne.symm h1]
      · by_cases h1 : k0 = k'
        · subst h1
          simp [addContribution, lookupCat, h0]
        · simp [addContribution, lookupCat, h0, h1, ih]

theorem lookupCat_subsFold (t : Transaction) (subs : List Subtransaction)
    (m : CatMap) (k : String) :
    lookupCat (subs.foldl (subStep t) m) k =
      updatedEntry (lookupCat m k) (subsForIn subs k) t := by
  induction subs generalizing m with
  | nil => cases hm : lookupCat m k <;> simp [subsForIn, updatedEntry, hm]
  | cons s rest ih =>
      by_cases hinf : isInflowName s.catName
      · have hfilter : subsForIn (s :: rest) k = subsForIn rest k := by
          simp [subsForIn, hinf]
        simp only [List.foldl_cons, subStep, hinf, if_true, hfilter, ih]
      · by_cases hk : s.catName = k
        · have hinf' : isInflowName k = false := by
            rw [← hk]; simpa using hinf
          have hfilter : subsForIn (s :: rest) k = s :: subsForIn rest k := by
            simp [subsForIn, List.filter_cons, hk, hinf']
          rw [List.foldl_cons, subStep, if_neg hinf, hk, ih, hfilter,
            lookupCat_addContribution]
          simp only [if_pos rfl]
          cases hm : lookupCat m k <;>
            simp [updatedEntry, List.replicate_succ, List.append_assoc, sub_eq_add_neg,
              add_comm, add_assoc, add_left_comm, neg_add, List.isEmpty_iff] <;>
            rw [Nat.add_comm, List.replicate_succ]
        · have hfilter : subsForIn (s :: rest) k = subsForIn rest k := by
            simp [subsForIn, hinf, hk]
          rw [List.foldl_cons, subStep, if_neg hinf, ih, hfilter,
            lookupCat_addContribution, if_neg]
          intro h
          exact hk h.symm

theorem map_milliToMajor_sum (l : List Subtransaction) :
    (l.map (fun s => milliToMajor s.amt)).sum = milliToMajor (l.map Subtransaction.amt).sum := by
  have hadd : ∀ a b : Int, milliToMajor (a + b) = milliToMajor a + milliToMajor b := by
    intro a b
    simp only [milliToMajor]
    push_cast
    ring
  induction l with
  | nil => simp [milliToMajor]
  | cons s rest ih => simp only [List.map_cons, List.sum_cons, hadd, ih]

/-- C1: for a transaction with subtransactions (reaching the split branch),
`aggregate_by_category` ignores the transaction's own category and amount:
under each key `k` it records exactly the non-inflow subtransactions whose
defaulted category name is `k` — total the negated sum of their amounts
divided by 1000, count their number, and the parent transaction appended
once per subtransaction; keys with no such subtransaction (in particular
"Split") are absent. -/
theorem C1_split_expansion (t : Transaction) (k : String)
    (h1 : t.subtransactions ≠ []) (h2 : truthy t.transfer_account_id = false)
    (h3 : isReconPayee t.payee = false) :
    lookupCat (aggregate_by_category [t]) k =
      if (subsFor t k).isEmpty then none
      else some ⟨-(milliToMajor ((subsFor t k).map Subtransaction.amt).sum),
        (subsFor t k).length, List.replicate (subsFor t k).length t⟩ := by
  have hag : aggregate_by_category [t] = t.subtransactions.foldl (subStep t) [] := by
    simp [aggregate_by_category, processTransaction, h1, h2, h3]
  rw [hag, lookupCat_subsFold]
  have hsf : subsForIn t.subtransactions k = subsFor t k := rfl
  rw [hsf]
  show updatedEntry none (subsFor t k) t = _
  rw [updatedEntry, map_milliToMajor_sum]
  simp [zero_sub]

/-- C1 witness: the spec's Example 3 — the split of −10000 into Groceries
−6000 and Dining −4000 yields Groceries total 6, count 1 and Dining total
4, count 1, with no "Split" key. -/
theorem C1_split_expansion_witness :
    (exSplit.subtransactions ≠ [] ∧ truthy exSplit.transfer_account_id = false
      ∧ isReconPayee exSplit.payee = false)
    ∧ lookupCat (aggregate_by_category [exSplit]) "Groceries" = some ⟨6, 1, [exSplit]⟩
    ∧ lookupCat (aggregate_by_category [exSplit]) "Dining" = some ⟨4, 1, [exSplit]⟩
    ∧ lookupCat (aggregate_by_category [exSplit]) "Split" = none := by
  refine ⟨⟨by decide, by decide, by decide⟩, ?_, ?_, ?_⟩
  · rw [C1_split_expansion exSplit "Groceries" (by decide) (by decide) (by decide),
      show subsFor exSplit "Groceries" = [⟨some (-6000), some "Groceries"⟩] from by decide]
    norm_num [milliToMajor, Subtransaction.amt]
  · rw [C1_split_expansion exSplit "Dining" (by decide) (by decide) (by decide),
      show subsFor exSplit "Dining" = [⟨some (-4000), some "Dining"⟩] from by decide]
    norm_num [milliToMajor, Subtransaction.amt]
  · rw [C1_split_expansion exSplit "Split" (by decide) (by decide) (by decide),
      show subsFor exSplit "Split" = [] from by decide]
    simp

theorem sumTotals_addContribution (m : CatMap) (k : String) (a : ℚ) (t : Transaction) :
    sumTotals (addContribution m k a t) = sumTotals m - a := by
  induction m with
  | nil => simp [addContribution, sumTotals]
  | cons p rest ih =>
      obtain ⟨k0, e0⟩ := p
      by_cases h : k0 = k
      · simp only [addContribution, if_pos h, sumTotals, List.map_cons, List.sum_cons]
        ring
      · simp only [addContribution, if_neg h, sumTotals, List.map_cons, List.sum_cons]
        simp only [sumTotals] at ih
        rw [ih]
        ring

theorem sumTotals_subsFold (t : Transaction) (subs : List Subtransaction) (m : CatMap) :
    sumTotals (subs.foldl (subStep t) m)
      = sumTotals m - ((subs.filter (fun s => !isInflowName s.catName)).map
          (fun s => milliToMajor s.amt)).sum := by
  induction subs generalizing m with
  | nil => simp
  | cons s rest ih =>
      by_cases hinf : isInflowName s.catName
      · simp [subStep, hinf, ih, List.filter_cons]
      · have hb : (!isInflowName s.catName) = true := by simp [hinf]
        simp only [List.foldl_cons, subStep, if_neg hinf, ih, sumTotals_addContribution,
          List.filter_cons, hb, if_pos, List.map_cons, List.sum_cons]
        ring

theorem numericAgg_addContribution (m1 m2 : CatMap) (k : String) (a : ℚ)
    (t1 t2 : Transaction) (h : numericAgg m1 = numericAgg m2) :
    numericAgg (addContribution m1 k a t1) = numericAgg (addContribution m2 k a t2) := by
  induction m1 generalizing m2 with
  | nil =>
      have hm2 : m2 = [] := by
        cases m2 with
        | nil => rfl
        | cons q r => simp [numericAgg] at h
      subst hm2
      simp [addContribution, numericAgg]
  | cons p r1 ih =>
      cases m2 with
      | nil => simp [numericAgg] at h
      | cons q r2 =>
          obtain ⟨k1, e1⟩ := p
          obtain ⟨k2, e2⟩ := q
          simp only [numericAgg, List.map_cons, List.cons.injEq, Prod.mk.injEq] at h
          obtain ⟨⟨hk, htot, hcnt⟩, hrest⟩ := h
          subst hk
          by_cases hcase : k1 = k
          · simp [addContribution, hcase, numericAgg, htot, hcnt, hrest]
          · simp only [addContribution, if_neg hcase, numericAgg, List.map_cons,
              List.cons.injEq, Prod.mk.injEq]
            refine ⟨⟨by trivial, htot, hcnt⟩, ?_⟩
            have := ih r2 (by simpa [numericAgg] using hrest)
            simpa [numericAgg] using this

theorem numericAgg_subsFold (subs : List Subtransaction) (t1 t2 : Transaction) :
    ∀ (m1 m2 : CatMap), numericAgg m1 = numericAgg m2 →
      numericAgg (subs.foldl (subStep t1) m1) = numericAgg (subs.foldl (subStep t2) m2) := by
  induction subs with
  | nil => intro m1 m2 h; simpa using h
  | cons s rest ih =>
      intro m1 m2 h
      by_cases hinf : isInflowName s.catName
      · simp only [List.foldl_cons, subStep, if_pos hinf]
        exact ih m1 m2 h
      · simp only [List.foldl_cons, subStep, if_neg hinf]
        exact ih _ _ (numericAgg_addContribution m1 m2 _ _ t1 t2 h)

/-- C5 (amended): for a split transaction not excluded as transfer or
reconciliation, the total recorded contribution equals the negation of the
sum of its non-inflow subtransaction amounts in major units, and the
per-category names, totals and counts of the result do not depend on the
parent's own amount and category-name fields. -/
theorem C5_split_sum (m : CatMap) (t : Transaction) (a : Option Int) (c : Option String)
    (h1 : t.subtransactions ≠ []) (h2 : truthy t.transfer_account_id = false)
    (h3 : isReconPayee t.payee = false) :
    sumTotals (processTransaction m t)
        = sumTotals m - milliToMajor (nonInflowSubAmountSum t)
    ∧ numericAgg (processTransaction m { t with amount := a, category_name := c })
        = numericAgg (processTransaction m t) := by
  have hbranch : processTransaction m t = t.subtransactions.foldl (subStep t) m := by
    simp [processTransaction, h1, h2, h3]
  constructor
  · rw [hbranch, sumTotals_subsFold]
    congr 1
    rw [map_milliToMajor_sum]
    rfl
  · have h1' : ({ t with amount := a, category_name := c } : Transaction).subtransactions ≠ [] := h1
    have h2' : truthy ({ t with amount := a, category_name := c } : Transaction).transfer_account_id
        = false := h2
    have h3' : isReconPayee ({ t with amount := a, category_name := c } : Transaction).payee
        = false := h3
    have hbranch' : processTransaction m { t with amount := a, category_name := c }
        = t.subtransactions.foldl (subStep { t with amount := a, category_name := c }) m := by
      simp [processTransaction, h1', h2', h3']
    rw [hbranch, hbranch']
    exact numericAgg_subsFold t.subtransactions _ t m m rfl

/-- C5 counterexample: for the split with subtransactions Groceries −6000
and Inflow +1000, the recorded contribution sum is 6 while the negation of
the sum of all subtransaction amounts is 5 — the claim's unrestricted sum
is wrong when an inflow subtransaction is skipped. -/
theorem C5_split_sum_counterexample :
    sumTotals (aggregate_by_category [exSplitInflow])
      ≠ -(milliToMajor (subAmountSum exSplitInflow)) := by
  have hbranch : aggregate_by_category [exSplitInflow]
      = exSplitInflow.subtransactions.foldl (subStep exSplitInflow) [] := by
    have h1 : exSplitInflow.subtransactions ≠ [] := by decide
    have h2 : truthy exSplitInflow.transfer_account_id = false := by decide
    have h3 : isReconPayee exSplitInflow.payee = false := by decide
    simp [aggregate_by_category, processTransaction, h1, h2, h3]
  have hg : isInflowName "Groceries" = false := by decide
  have hi : isInflowName "Inflow: Ready to Assign" = true := by decide
  rw [hbranch, sumTotals_subsFold]
  rw [show exSplitInflow.subtransactions.filter (fun s => !isInflowName s.catName)
      = [⟨some (-6000), some "Groceries"⟩] from by decide]
  norm_num [sumTotals, milliToMajor, Subtransaction.amt, subAmountSum, exSplitInflow]

/-- C5 witness: the amended statement at the Example-3 split with the
parent's amount and category replaced by arbitrary other values. -/
theorem C5_split_sum_witness :
    (exSplit.subtransactions ≠ [] ∧ truthy exSplit.transfer_account_id = false
      ∧ isReconPayee exSplit.payee = false)
    ∧ (sumTotals (processTransaction [] exSplit)
        = sumTotals [] - milliToMajor (nonInflowSubAmountSum exSplit)
      ∧ numericAgg (processTransaction []
          { exSplit with amount := some 999, category_name := some "Other" })
        = numericAgg (processTransaction [] exSplit)) :=
  ⟨⟨by decide, by decide, by decide⟩,
   C5_split_sum [] exSplit (some 999) (some "Other") (by decide) (by decide) (by decide)⟩

/-- C4 (amended): a transaction whose transfer-account id is a non-empty
string (Python-truthy) contributes nothing: removing it from any position
of the input leaves the aggregate unchanged. -/
theorem C4_transfer_excluded (ts1 ts2 : List Transaction) (t : Transaction)
    (h : truthy t.transfer_account_id = true) :
    aggregate_by_category (ts1 ++ t :: ts2) = aggregate_by_category (ts1 ++ ts2) := by
  unfold aggregate_by_category
  rw [List.foldl_append, List.foldl_append, List.foldl_cons]
  congr 1
  simp [processTransaction, h]

/-- C4 counterexample: a transfer-account id that is present and non-null
but empty is falsy in Python, so the transaction still contributes —
refuting the claim's "present and non-null" trigger. -/
theorem C4_transfer_excluded_counterexample :
    exEmptyTransfer.transfer_account_id = some ""
    ∧ lookupCat (aggregate_by_category [exEmptyTransfer]) "Groceries"
        = some ⟨5, 1, [exEmptyTransfer]⟩ := by
  refine ⟨rfl, ?_⟩
  have hbranch : aggregate_by_category [exEmptyTransfer]
      = addContribution [] exEmptyTransfer.catName
          (milliToMajor exEmptyTransfer.amt) exEmptyTransfer := by
    have h1 : exEmptyTransfer.subtransactions = [] := by decide
    have h2 : truthy exEmptyTransfer.transfer_account_id = false := by decide
    have h3 : isReconPayee exEmptyTransfer.payee = false := by decide
    have h4 : isInflowName exEmptyTransfer.catName = false := by decide
    simp [aggregate_by_category, processTransaction, h1, h2, h3, h4]
  rw [hbranch]
  rw [show exEmptyTransfer.catName = "Groceries" from by decide]
  norm_num [addContribution, lookupCat, milliToMajor, Transaction.amt, exEmptyTransfer]

/-- C4 witness: a genuine transfer dropped from a two-transaction list. -/
theorem C4_transfer_excluded_witness :
    truthy exTransfer.transfer_account_id = true
    ∧ aggregate_by_category ([exSplit] ++ exTransfer :: [])
        = aggregate_by_category ([exSplit] ++ []) :=
  ⟨by decide, C4_transfer_excluded [exSplit] [] exTransfer (by decide)⟩

theorem mem_catKeys_addContribution (k : String) (a : ℚ) (t : Transaction) (k' : String) :
    ∀ m : CatMap, k' ∈ catKeys (addContribution m k a t) → k' ∈ catKeys m ∨ k' = k := by
  intro m
  induction m with
  | nil =>
      intro h
      simp [addContribution, catKeys] at h
      exact Or.inr h
  | cons p rest ih =>
      obtain ⟨k0, e0⟩ := p
      by_cases hc : k0 = k
      · subst hc
        intro h
        exact Or.inl (by simpa [addContribution, catKeys] using h)
      · intro h
        simp only [addContribution, if_neg hc, catKeys, List.map_cons, List.mem_cons] at h ⊢
        rcases h with h | h
        · exact Or.inl (Or.inl h)
        · rcases ih h with h' | h'
          · exact Or.inl (Or.inr h')
          · exact Or.inr h'

theorem mem_catKeys_subsFold (t : Transaction) (k' : String) :
    ∀ (subs : List Subtransaction) (m : CatMap),
      k' ∈ catKeys (subs.foldl (subStep t) m) → k' ∈ catKeys m ∨ isInflowName k' = false := by
  intro subs
  induction subs with
  | nil =>
      intro m h
      exact Or.inl (by simpa using h)
  | cons s rest ih =>
      intro m h
      by_cases hinf : isInflowName s.catName
      · rw [List.foldl_cons, subStep, if_pos hinf] at h
        exact ih m h
      · have hinf' : isInflowName s.catName = false := by simpa using hinf
        rw [List.foldl_cons, subStep, if_neg hinf] at h
        rcases ih _ h with h' | h'
        · rcases mem_catKeys_addContribution _ _ _ _ _ h' with h'' | h''
          · exact Or.inl h''
          · right
            rw [h'']
            exact hinf'
        · exact Or.inr h'

theorem mem_catKeys_processTransaction (t : Transaction) (k' : String) (m : CatMap)
    (h : k' ∈ catKeys (processTransaction m t)) :
    k' ∈ catKeys m ∨ isInflowName k' = false := by
  unfold processTransaction at h
  by_cases h2 : truthy t.transfer_account_id = true
  · rw [if_pos h2] at h
    exact Or.inl h
  · rw [if_neg h2] at h
    by_cases h3 : isReconPayee t.payee = true
    · rw [if_pos h3] at h
      exact Or.inl h
    · rw [if_neg h3] at h
      by_cases h1 : t.subtransactions ≠ []
      · rw [if_pos h1] at h
        exact mem_catKeys_subsFold t k' _ m h
      · rw [if_neg h1] at h
        by_cases h4 : isInflowName t.catName = true
        · rw [if_pos h4] at h
          exact Or.inl h
        · rw [if_neg h4] at h
          rcases mem_catKeys_addContribution _ _ _ _ _ h with h' | h'
          · exact Or.inl h'
          · right
            rw [h']
            simpa using h4

theorem mem_catKeys_aggregate (k' : String) :
    ∀ (ts : List Transaction) (m : CatMap),
      k' ∈ catKeys (ts.foldl processTransaction m) →
        k' ∈ catKeys m ∨ isInflowName k' = false := by
  intro ts
  induction ts with
  | nil =>
      intro m h
      exact Or.inl (by simpa using h)
  | cons t rest ih =>
      intro m h
      rw [List.foldl_cons] at h
      rcases ih _ h with h' | h'
      · exact mem_catKeys_processTransaction t k' m h'
      · exact Or.inr h'

theorem statusStep_inflow_free (th : Int) (r : CategoryStatus) (c : CategorySnapshot)
    (h1 : ∀ e ∈ r.overspent, isInflowName e.name = false)
    (h2 : ∀ e ∈ r.warning, isInflowName e.name = false)
    (h3 : ∀ e ∈ r.underfunded, isInflowName e.name = false) :
    (∀ e ∈ (statusStep th r c).overspent, isInflowName e.name = false)
    ∧ (∀ e ∈ (statusStep th r c).warning, isInflowName e.name = false)
    ∧ (∀ e ∈ (statusStep th r c).underfunded, isInflowName e.name = false) := by
  unfold statusStep
  split_ifs with hi hb hbal hpct hund <;>
    refine ⟨?_, ?_, ?_⟩ <;>
    intro e he <;>
    first
      | exact h1 e he
      | exact h2 e he
      | exact h3 e he
      | (rcases List.mem_append.mp he with h' | h'
         · first
             | exact h1 e h'
             | exact h2 e h'
             | exact h3 e h'
         · simp only [List.mem_singleton] at h'
           subst h'
           simpa [CategorySnapshot.entryWithPct, CategorySnapshot.entryNoPct] using hi)

theorem foldl_statusStep_inflow_free (th : Int) :
    ∀ (cats : List CategorySnapshot) (r : CategoryStatus),
      (∀ e ∈ r.overspent, isInflowName e.name = false) →
      (∀ e ∈ r.warning, isInflowName e.name = false) →
      (∀ e ∈ r.underfunded, isInflowName e.name = false) →
      (∀ e ∈ (cats.foldl (statusStep th) r).overspent, isInflowName e.name = false)
      ∧ (∀ e ∈ (cats.foldl (statusStep th) r).warning, isInflowName e.name = false)
      ∧ (∀ e ∈ (cats.foldl (statusStep th) r).underfunded, isInflowName e.name = false) := by
  intro cats
  induction cats with
  | nil =>
      intro r h1 h2 h3
      exact ⟨h1, h2, h3⟩
  | cons c rest ih =>
      intro r h1 h2 h3
      rw [List.foldl_cons]
      obtain ⟨g1, g2, g3⟩ := statusStep_inflow_free th r c h1 h2 h3
      exact ih _ g1 g2 g3

/-- C3: no category name containing "inflow" or "ready to assign"
case-insensitively ever appears as a key of `aggregate_by_category`'s
output, nor as the name of any entry of `get_category_status`'s overspent,
warning or underfunded lists, for any input. -/
theorem C3_inflow_never_appears (ts : List Transaction) (k : String)
    (cats : List CategorySnapshot) (th : Int) (e : StatusEntry) :
    (k ∈ catKeys (aggregate_by_category ts) → isInflowName k = false)
    ∧ (e ∈ (get_category_status cats th).overspent → isInflowName e.name = false)
    ∧ (e ∈ (get_category_status cats th).warning → isInflowName e.name = false)
    ∧ (e ∈ (get_category_status cats th).underfunded → isInflowName e.name = false) := by
  obtain ⟨g1, g2, g3⟩ := foldl_statusStep_inflow_free th cats ⟨[], [], []⟩
    (by simp) (by simp) (by simp)
  refine ⟨fun h => ?_, fun h => g1 e h, fun h => g2 e h, fun h => g3 e h⟩
  rcases mem_catKeys_aggregate k ts [] h with h' | h'
  · simp [catKeys] at h'
  · exact h'

/-- C3 witness: the Example-3 aggregate has key "Groceries", which the
theorem certifies is not an inflow name. -/
theorem C3_inflow_never_appears_witness : isInflowName "Groceries" = false :=
  (C3_inflow_never_appears [exSplit] "Groceries" [] 0 ⟨"x", 0, 0, 0, none⟩).1 (by decide)

theorem lookupCount_bump (m : List (String × Nat)) (k k' : String) :
    lookupCount (bump m k) k'
      = if k' = k then some ((lookupCount m k).getD 0 + 1) else lookupCount m k' := by
  induction m with
  | nil =>
      by_cases h : k' = k
      · simp [bump, lookupCount, h]
      · simp [bump, lookupCount, h, Ne.symm h]
  | cons p rest ih =>
      obtain ⟨k0, c0⟩ := p
      by_cases h0 : k0 = k
      · subst h0
        by_cases h1 : k' = k0
        · simp [bump, lookupCount, h1]
        · simp [bump, lookupCount, h1, Ne.symm h1]
      · by_cases h1 : k0 = k'
        · subst h1
          simp [bump, lookupCount, h0]
        · simp [bump, lookupCount, h0, h1, ih]

theorem countKeys_bump (m : List (String × Nat)) (k : String) :
    countKeys (bump m k)
      = if k ∈ countKeys m then countKeys m else countKeys m ++ [k] := by
  induction m with
  | nil => simp [bump, countKeys]
  | cons p rest ih =>
      obtain ⟨k0, c0⟩ := p
      by_cases h : k0 = k
      · subst h
        simp [bump, countKeys]
      · simp only [bump, if_neg h, countKeys, List.map_cons]
        rw [show List.map Prod.fst (bump rest k) = countKeys (bump rest k) from rfl, ih]
        by_cases hm : k ∈ List.map Prod.fst rest
        · simp only [countKeys, if_pos hm]
          rw [if_pos (List.mem_cons_of_mem k0 hm)]
        · simp only [countKeys, if_neg hm]
          have hnc : k ∉ k0 :: List.map Prod.fst rest := by
            intro hc
            rcases List.mem_cons.mp hc with hc' | hc'
            · exact h hc'.symm
            · exact hm hc'
          rw [if_neg hnc, List.cons_append]

theorem lookupCount_eq_none (m : List (String × Nat)) (k : String) :
    lookupCount m k = none ↔ k ∉ countKeys m := by
  induction m with
  | nil => simp [lookupCount, countKeys]
  | cons p rest ih =>
      obtain ⟨k0, c0⟩ := p
      by_cases h : k0 = k
      · subst h
        simp [lookupCount, countKeys]
      · simp [lookupCount, countKeys, h, ih, Ne.symm h]

theorem lookupCount_foldl_bump :
    ∀ (l : List String) (m : List (String × Nat)) (k : String),
      lookupCount (l.foldl bump m) k
        = match lookupCount m k with
          | some c => some (c + l.count k)
          | none => if k ∈ l then some (l.count k) else none := by
  intro l
  induction l with
  | nil =>
      intro m k
      cases h : lookupCount m k <;> simp [h]
  | cons x xs ih =>
      intro m k
      rw [List.foldl_cons, ih]
      have hb := lookupCount_bump m x k
      by_cases hk : k = x
      · subst hk
        rw [if_pos rfl] at hb
        cases h : lookupCount m k with
        | none =>
            rw [h] at hb
            rw [hb]
            show some (0 + 1 + xs.count k)
              = if k ∈ k :: xs then some ((k :: xs).count k) else none
            rw [if_pos (List.mem_cons_self k xs), List.count_cons_self]
            exact congrArg some (by omega)
        | some c =>
            rw [h] at hb
            rw [hb]
            show some (c + 1 + xs.count k) = some (c + (k :: xs).count k)
            rw [List.count_cons_self]
            exact congrArg some (by omega)
      · rw [if_neg hk] at hb
        rw [hb]
        have hcc : (x :: xs).count k = xs.count k := by
          simp [List.count_cons, hk]
        have hmm : (k ∈ x :: xs) = (k ∈ xs) := by
          simp [List.mem_cons, hk]
        cases h : lookupCount m k <;> simp [h, hcc, hmm]

theorem nodup_countKeys_foldl_bump :
    ∀ (l : List String) (m : List (String × Nat)),
      (countKeys m).Nodup → (countKeys (l.foldl bump m)).Nodup := by
  intro l
  induction l with
  | nil => intro m h; simpa using h
  | cons x xs ih =>
      intro m h
      rw [List.foldl_cons]
      refine ih _ ?_
      rw [countKeys_bump]
      split_ifs with hx
      · exact h
      · refine List.Nodup.append h (List.nodup_singleton x) ?_
        intro a ha hb
        simp only [List.mem_singleton] at hb
        subst hb
        exact hx ha

theorem lookupCount_mem (k : String) (c : Nat) :
    ∀ m : List (String × Nat), lookupCount m k = some c → (k, c) ∈ m := by
  intro m
  induction m with
  | nil => intro h; simp [lookupCount] at h
  | cons p rest ih =>
      intro h
      obtain ⟨k0, c0⟩ := p
      by_cases h0 : k0 = k
      · subst h0
        simp [lookupCount] at h
        simp [h]
      · simp only [lookupCount, if_neg h0] at h
        exact List.mem_cons_of_mem _ (ih h)

theorem mem_lookupCount (k : String) (c : Nat) :
    ∀ m : List (String × Nat), (countKeys m).Nodup → (k, c) ∈ m →
      lookupCount m k = some c := by
  intro m
  induction m with
  | nil => intro _ h; simp at h
  | cons p rest ih =>
      intro hnd h
      obtain ⟨k0, c0⟩ := p
      have hnd' := hnd
      simp only [countKeys, List.map_cons, List.nodup_cons] at hnd'
      rcases List.mem_cons.mp h with h' | h'
      · obtain ⟨hk, hc⟩ := Prod.ext_iff.mp h'
        subst hk
        subst hc
        simp [lookupCount]
      · have hkmem : k ∈ List.map Prod.fst rest := List.mem_map.mpr ⟨(k, c), h', rfl⟩
        have hne : k0 ≠ k := fun he => hnd'.1 (he ▸ hkmem)
        simp only [lookupCount, if_neg hne]
        exact ih hnd'.2 h'

theorem pairwise_keys_foldl_bump (L : List String) :
    ∀ (l p : List String) (m : List (String × Nat)),
      L = p ++ l →
      (∀ a, a ∈ countKeys m ↔ a ∈ p) →
      (countKeys m).Pairwise (fun a b => L.indexOf a < L.indexOf b) →
      (countKeys (l.foldl bump m)).Pairwise (fun a b => L.indexOf a < L.indexOf b) := by
  intro l
  induction l with
  | nil =>
      intro p m _ _ hpw
      simpa using hpw
  | cons x xs ih =>
      intro p m hL hmem hpw
      rw [List.foldl_cons]
      by_cases hx : x ∈ countKeys m
      · refine ih (p ++ [x]) (bump m x) ?_ ?_ ?_
        · rw [hL, List.append_assoc, List.singleton_append]
        · intro a
          rw [countKeys_bump, if_pos hx]
          constructor
          · intro ha
            exact List.mem_append_left _ ((hmem a).mp ha)
          · intro ha
            rcases List.mem_append.mp ha with h' | h'
            · exact (hmem a).mpr h'
            · simp only [List.mem_singleton] at h'
              subst h'
              exact hx
        · rw [countKeys_bump, if_pos hx]
          exact hpw
      · refine ih (p ++ [x]) (bump m x) ?_ ?_ ?_
        · rw [hL, List.append_assoc, List.singleton_append]
        · intro a
          rw [countKeys_bump, if_neg hx]
          constructor
          · intro ha
            rcases List.mem_append.mp ha with h' | h'
            · exact List.mem_append_left _ ((hmem a).mp h')
            · exact List.mem_append_right _ h'
          · intro ha
            rcases List.mem_append.mp ha with h' | h'
            · exact List.mem_append_left _ ((hmem a).mpr h')
            · exact List.mem_append_right _ h'
        · rw [countKeys_bump, if_neg hx]
          refine List.pairwise_append.mpr ⟨hpw, by simp, ?_⟩
          intro a ha b hb
          simp only [List.mem_singleton] at hb
          rw [hb]
          have hap : a ∈ p := (hmem a).mp ha
          have hxp : x ∉ p := fun hc => hx ((hmem x).mpr hc)
          have h1 : L.indexOf a < p.length := by
            rw [hL, List.indexOf_append_of_mem hap]
            exact List.indexOf_lt_length.mpr hap
          have h2 : p.length ≤ L.indexOf x := by
            rw [hL, List.indexOf_append_of_not_mem hxp]
            exact Nat.le_add_right _ _
          exact lt_of_lt_of_le h1 h2

theorem maxBySnd_spec : ∀ l : List (String × Nat), l ≠ [] →
    ∃ p l1 l2, maxBySnd l = some p ∧ l = l1 ++ p :: l2
      ∧ (∀ q ∈ l1, q.2 < p.2) ∧ (∀ q ∈ l, q.2 ≤ p.2) := by
  intro l
  induction l with
  | nil => intro h; exact absurd rfl h
  | cons x xs ih =>
      intro _
      by_cases hxs : xs = []
      · subst hxs
        exact ⟨x, [], [], by simp [maxBySnd], by simp, by simp, by simp⟩
      · obtain ⟨p, l1, l2, hmax, hsplit, hlt, hle⟩ := ih hxs
        by_cases hcmp : p.2 > x.2
        · refine ⟨p, x :: l1, l2, ?_, by rw [List.cons_append, hsplit], ?_, ?_⟩
          · simp [maxBySnd, hmax, hcmp]
          · intro q hq
            rcases List.mem_cons.mp hq with h' | h'
            · rw [h']
              exact hcmp
            · exact hlt q h'
          · intro q hq
            rcases List.mem_cons.mp hq with h' | h'
            · rw [h']
              exact le_of_lt hcmp
            · exact hle q h'
        · refine ⟨x, [], xs, ?_, rfl, by simp, ?_⟩
          · simp [maxBySnd, hmax, hcmp]
          · intro q hq
            rcases List.mem_cons.mp hq with h' | h'
            · rw [h']
            · exact le_trans (hle q h') (not_lt.mp hcmp)

theorem dayCounts_eq (ts : List Transaction) :
    dayCounts ts = (ts.map Transaction.weekday).foldl bump [] := by
  rw [dayCounts, List.foldl_map]

/-- C8: for a non-empty transaction list, `most_active_day` is a weekday
on which some transaction falls, no weekday has a strictly larger
transaction count, and on ties it is the weekday first encountered during
the scan over the transaction list (smallest first-occurrence index). -/
theorem C8_most_active_day (ts : List Transaction) (w : String) (h : ts ≠ []) :
    mostActiveDay ts ∈ ts.map Transaction.weekday
    ∧ weekdayCount ts w ≤ weekdayCount ts (mostActiveDay ts)
    ∧ (w ∈ ts.map Transaction.weekday →
        weekdayCount ts w = weekdayCount ts (mostActiveDay ts) →
        (ts.map Transaction.weekday).indexOf (mostActiveDay ts)
          ≤ (ts.map Transaction.weekday).indexOf w) := by
  have hlne : ts.map Transaction.weekday ≠ [] := by
    intro hc
    exact h (by simpa using hc)
  have hdc : dayCounts ts = (ts.map Transaction.weekday).foldl bump [] := dayCounts_eq ts
  have hlook : ∀ k : String, lookupCount (dayCounts ts) k
      = if k ∈ ts.map Transaction.weekday
        then some ((ts.map Transaction.weekday).count k) else none := by
    intro k
    rw [hdc, lookupCount_foldl_bump]
    rfl
  have hdcne : dayCounts ts ≠ [] := by
    obtain ⟨a, rest, hlc⟩ : ∃ a rest, ts.map Transaction.weekday = a :: rest := by
      cases hml : ts.map Transaction.weekday with
      | nil => exact absurd hml hlne
      | cons a rest => exact ⟨a, rest, rfl⟩
    intro hc
    have hla := hlook a
    rw [hc, if_pos (by rw [hlc]; exact List.mem_cons_self a rest)] at hla
    simp [lookupCount] at hla
  obtain ⟨p, l1, l2, hmax, hsplit, hlt, hle⟩ := maxBySnd_spec (dayCounts ts) hdcne
  have hmad : mostActiveDay ts = p.1 := by
    simp [mostActiveDay, hmax]
  have hnd : (countKeys (dayCounts ts)).Nodup := by
    rw [hdc]
    exact nodup_countKeys_foldl_bump _ [] (by simp [countKeys])
  have hpmem : p ∈ dayCounts ts := by
    rw [hsplit]
    exact List.mem_append_right _ (List.mem_cons_self _ _)
  have hplook : lookupCount (dayCounts ts) p.1 = some p.2 :=
    mem_lookupCount p.1 p.2 (dayCounts ts) hnd hpmem
  have hp1mem : p.1 ∈ ts.map Transaction.weekday := by
    by_contra hc
    rw [hlook p.1, if_neg hc] at hplook
    exact Option.noConfusion hplook
  have hcount : p.2 = (ts.map Transaction.weekday).count p.1 := by
    rw [hlook p.1, if_pos hp1mem] at hplook
    exact (Option.some.inj hplook).symm
  have hcount_le : ∀ v : String, (ts.map Transaction.weekday).count v ≤ p.2 := by
    intro v
    by_cases hv : v ∈ ts.map Transaction.weekday
    · have hlv : lookupCount (dayCounts ts) v
          = some ((ts.map Transaction.weekday).count v) := by
        rw [hlook v, if_pos hv]
      exact hle _ (lookupCount_mem _ _ _ hlv)
    · rw [List.count_eq_zero_of_not_mem hv]
      exact Nat.zero_le _
  refine ⟨?_, ?_, ?_⟩
  · rw [hmad]
    exact hp1mem
  · rw [hmad]
    show (ts.map Transaction.weekday).count w ≤ (ts.map Transaction.weekday).count p.1
    rw [← hcount]
    exact hcount_le w
  · intro hwmem hweq
    rw [hmad]
    have hweq' : (ts.map Transaction.weekday).count w = p.2 := by
      have hq : (ts.map Transaction.weekday).count w
          = (ts.map Transaction.weekday).count (mostActiveDay ts) := hweq
      rw [hmad] at hq
      rw [hq, ← hcount]
    have hlw : lookupCount (dayCounts ts) w
        = some ((ts.map Transaction.weekday).count w) := by
      rw [hlook w, if_pos hwmem]
    have hwm : (w, (ts.map Transaction.weekday).count w) ∈ dayCounts ts :=
      lookupCount_mem _ _ _ hlw
    rw [hsplit] at hwm
    rcases List.mem_append.mp hwm with hin1 | hin2
    · have hc := hlt _ hin1
      exact absurd hc (by rw [hweq']; exact lt_irrefl _)
    · rcases List.mem_cons.mp hin2 with heq | hin2'
      · have hw1 : w = p.1 := congrArg Prod.fst heq
        rw [hw1]
      · have hpw : (countKeys (dayCounts ts)).Pairwise
            (fun a b => (ts.map Transaction.weekday).indexOf a
              < (ts.map Transaction.weekday).indexOf b) := by
          rw [hdc]
          exact pairwise_keys_foldl_bump (ts.map Transaction.weekday)
            (ts.map Transaction.weekday) [] [] (by simp) (by simp [countKeys])
            (by simp [countKeys])
        have hkeys : countKeys (dayCounts ts) = countKeys l1 ++ p.1 :: countKeys l2 := by
          rw [hsplit]
          simp [countKeys]
        rw [hkeys] at hpw
        have hp2 := (List.pairwise_append.mp hpw).2.1
        have hR := (List.pairwise_cons.mp hp2).1
        have hwk : w ∈ countKeys l2 := List.mem_map.mpr ⟨_, hin2', rfl⟩
        exact le_of_lt (hR w hwk)

/-- C8 witness: the spec's Example 5 — three Mondays and one Tuesday give
most-active-day "Monday", instantiated at `w := "Tuesday"`. -/
theorem C8_most_active_day_witness :
    exWeekTxs ≠ []
    ∧ mostActiveDay exWeekTxs = "Monday"
    ∧ (mostActiveDay exWeekTxs ∈ exWeekTxs.map Transaction.weekday
      ∧ weekdayCount exWeekTxs "Tuesday" ≤ weekdayCount exWeekTxs (mostActiveDay exWeekTxs)
      ∧ ("Tuesday" ∈ exWeekTxs.map Transaction.weekday →
          weekdayCount exWeekTxs "Tuesday"
            = weekdayCount exWeekTxs (mostActiveDay exWeekTxs) →
          (exWeekTxs.map Transaction.weekday).indexOf (mostActiveDay exWeekTxs)
            ≤ (exWeekTxs.map Transaction.weekday).indexOf "Tuesday")) :=
  ⟨by decide, by decide, C8_most_active_day exWeekTxs "Tuesday" (by decide)⟩

end Ynab
